import Mathlib

/-!
Shallow embedding of the two analysis scripts of this repository
(`analyze_profiles.py` and `compare_benchmarks.py`) together with proofs of
the specification claims about them.

Python strings are modelled as `List Char`, Python `float` as `ℚ`
(the claims under study are about the algebraic form of the computed
values and about guarding, not about rounding), Python exceptions as
`Option` (`none` = the run raises), and Python's insertion-ordered
`dict`/`Counter` as an association list in key-insertion order.
-/

namespace HillDescent

/-- Python-style check that `needle` is a leading segment of `hay`
(used to model fixed-text matching inside `re.search`). -/
def leadsWith : List Char → List Char → Bool
  | [], _ => true
  | _ :: _, [] => false
  | a :: as, b :: bs => a = b && leadsWith as bs

/-- Python's substring test `needle in hay` on character lists. -/
def strContains (needle hay : List Char) : Bool :=
  (List.range (hay.length + 1)).any fun i => leadsWith needle (hay.drop i)

namespace AnalyzeProfiles

/-- `collections.Counter` over frame indices: an association list of
(key, count) pairs kept in key first-insertion order, exactly the
iteration order of a CPython `Counter` (insertion-ordered dict). -/
abbrev Counter := List (Nat × Nat)

/-- `counter[k] += 1`: bump the existing entry for `k`, keeping its
position; a new key is appended at the end (dict insertion order). -/
def Counter.incr : Counter → Nat → Counter
  | [], k => [(k, 1)]
  | (k', v) :: rest, k =>
    if k' = k then (k', v + 1) :: rest else (k', v) :: Counter.incr rest k

/-- `counter[k]` lookup: the entry for `k` (keys are unique by
construction, so the first match is the entry); a missing key reads
as 0 (Counter semantics). -/
def Counter.get : Counter → Nat → Nat
  | [], _ => 0
  | p :: rest, k => if p.1 = k then p.2 else Counter.get rest k

/-- One entry of `data['shared']['frames']`: only the optional `name`
field is consumed by the script. -/
structure Frame where
  name : Option String

/-- One entry of `data['profiles']`: only the `samples` field (a list of
stacks, each stack a list of frame indices, root first, leaf last)
is consumed by the script. -/
structure Profile where
  samples : List (List Nat)

/-- The parts of the speedscope-style JSON document the script reads. -/
structure ProfileData where
  frames : List Frame
  profiles : List Profile

/-- `frame_names = [f.get('name', 'unknown') for f in frames]`. -/
def frame_names (d : ProfileData) : List String :=
  d.frames.map fun f => f.name.getD "unknown"

/-- The accumulator variables of `analyze_profile`. -/
structure AnalyzeState where
  total_samples : Nat
  exclusive : Counter
  inclusive : Counter

/-- Body of the inner loop `for stack in samples`: an empty stack is
skipped (`if not stack: continue`); otherwise the leaf `stack[-1]`
bumps the exclusive counter and every element of `set(stack)` bumps
the inclusive counter once.  CPython iterates `set(stack)` in an
unspecified order; the model fixes one deduplication order (which
order is irrelevant to the counts, since each distinct frame of the
stack is bumped exactly once either way). -/
def processStack (st : AnalyzeState) (stack : List Nat) : AnalyzeState :=
  match stack.getLast? with
  | none => st
  | some leaf =>
    { st with
      exclusive := Counter.incr st.exclusive leaf
      inclusive := stack.dedup.foldl Counter.incr st.inclusive }

/-- Body of the outer loop `for profile in data['profiles']`:
`total_samples += len(samples)` and then the inner loop. -/
def processProfile (st : AnalyzeState) (p : Profile) : AnalyzeState :=
  p.samples.foldl processStack
    { st with total_samples := st.total_samples + p.samples.length }

/-- The accumulation phase of `analyze_profile` (lines 13-28). -/
def analyze_profile (d : ProfileData) : AnalyzeState :=
  d.profiles.foldl processProfile ⟨0, [], []⟩

/-- All samples of the file, in processing order. -/
def allSamples (d : ProfileData) : List (List Nat) :=
  (d.profiles.map Profile.samples).flatten

/-- `Counter.most_common(n)`: the entries sorted by count descending with
a stable sort (CPython: `sorted(..., key=itemgetter(1), reverse=True)`,
and `heapq.nlargest` is documented equivalent to `sorted(...)[:n]`),
then truncated to `n`. -/
def most_common (c : Counter) (n : Nat) : List (Nat × Nat) :=
  (c.mergeSort fun a b => Nat.ble b.2 a.2).take n

/-- The top-20 exclusive listing (frame index, count). -/
def top20_exclusive (d : ProfileData) : List (Nat × Nat) :=
  most_common (analyze_profile d).exclusive 20

/-- The top-20 inclusive listing (frame index, count). -/
def top20_inclusive (d : ProfileData) : List (Nat × Nat) :=
  most_common (analyze_profile d).inclusive 20

/-- The fixed target list of the script (lines 41-55). -/
def targets : List String :=
  ["__lll_lock_wake_private", "ArcSwap", "Mutex", "RwLock", "Rayon",
   "IndexMap", "shift_remove", "malloc", "cfree", "Vec::push",
   "collect", "alloc", "dealloc"]

/-- `s.lower()` as a character list (ASCII-adequate model of `str.lower`). -/
def lowerChars (s : String) : List Char :=
  s.toList.map Char.toLower

/-- `[(idx, name) for idx, name in enumerate(frame_names) if t.lower() in name.lower()]`. -/
def matchesOf (d : ProfileData) (t : String) : List (Nat × String) :=
  (frame_names d).enum.filter fun p => strContains (lowerChars t) (lowerChars p.2)

/-- `total_inc = sum(inclusive_counter[idx] for idx, name in matches)`. -/
def total_inc (d : ProfileData) (t : String) : Nat :=
  ((matchesOf d t).map fun p => Counter.get (analyze_profile d).inclusive p.1).sum

/-- `total_exc = sum(exclusive_counter[idx] for idx, name in matches)`. -/
def total_exc (d : ProfileData) (t : String) : Nat :=
  ((matchesOf d t).map fun p => Counter.get (analyze_profile d).exclusive p.1).sum

/-- The targets whose summary line is printed: `if total_inc > 0: print(...)`. -/
def printedTargets (d : ProfileData) : List String :=
  targets.filter fun t => decide (0 < total_inc d t)

/-- The stream of exclusive-counter increments produced by the loop:
the leaf of each non-empty stack, in processing order. -/
def exclusiveStream (d : ProfileData) : List Nat :=
  (allSamples d).filterMap List.getLast?

/-- The stream of inclusive-counter increments produced by the loop:
the deduplicated elements of each stack, in processing order. -/
def inclusiveStream (d : ProfileData) : List Nat :=
  ((allSamples d).map List.dedup).flatten

/-- The keys of an increment stream in order of first increment. -/
def firstOccurs (l : List Nat) : List Nat :=
  l.foldl (fun acc k => if k ∈ acc then acc else acc ++ [k]) []

/-- The same profile data with every empty stack removed. -/
def dropEmptySamples (d : ProfileData) : ProfileData :=
  ⟨d.frames, d.profiles.map fun p => ⟨p.samples.filter fun s => !s.isEmpty⟩⟩

/-- A small concrete profile (two named frames, samples `[[0,1],[1]]`)
used to instantiate the theorems on explicit input. -/
def exampleProfile : ProfileData :=
  ⟨[⟨some "sys::Mutex::lock"⟩, ⟨some "b"⟩], [⟨[[0, 1], [1]]⟩]⟩

end AnalyzeProfiles

namespace CompareBenchmarks

/-- A parsed benchmark table row: (population, regions, elapsed seconds). -/
abbrev BenchRow := Int × Int × ℚ

/-- Python `str.split(sep)` for a one-character separator: splits at every
occurrence, keeping empty fields (`''.split(s) == ['']`). -/
def splitOnCh (sep : Char) : List Char → List (List Char)
  | [] => [[]]
  | c :: rest =>
    match splitOnCh sep rest with
    | [] => [[c]]
    | g :: gs => if c = sep then [] :: g :: gs else (c :: g) :: gs

/-- Python `str.strip()` whitespace predicate (the characters relevant to
these markdown inputs). -/
def isWs (c : Char) : Bool :=
  c = ' ' || c = '\t' || c = '\n' || c = '\r'

/-- Python `str.strip()`. -/
def stripChars (s : List Char) : List Char :=
  ((s.dropWhile isWs).reverse.dropWhile isWs).reverse

/-- Digit-string value (no validity check; callers check `allDigits`). -/
def natOfDigits (s : List Char) : Nat :=
  s.foldl (fun acc c => acc * 10 + (c.toNat - 48)) 0

def allDigits (s : List Char) : Bool :=
  s.all Char.isDigit

/-- Python `int(s)`: optional surrounding whitespace, optional sign,
then a non-empty digit string. -/
def parseInt (s : List Char) : Option Int :=
  match stripChars s with
  | '-' :: ds =>
    if !ds.isEmpty && allDigits ds then some (-(natOfDigits ds : Int)) else none
  | '+' :: ds =>
    if !ds.isEmpty && allDigits ds then some (natOfDigits ds : Int) else none
  | ds =>
    if !ds.isEmpty && allDigits ds then some (natOfDigits ds : Int) else none

/-- Value of an unsigned decimal literal `ip[.fp]` (at least one digit). -/
def decimalVal (s : List Char) : Option ℚ :=
  match splitOnCh '.' s with
  | [ip] =>
    if !ip.isEmpty && allDigits ip then some (natOfDigits ip : ℚ) else none
  | [ip, fp] =>
    if (!ip.isEmpty || !fp.isEmpty) && allDigits ip && allDigits fp then
      some ((natOfDigits ip : ℚ) + (natOfDigits fp : ℚ) / (10 : ℚ) ^ fp.length)
    else none
  | _ => none

/-- Python `float(s)`, modelled on the decimal-literal subset actually
present in the benchmark tables (optional surrounding whitespace,
optional sign, digits with an optional fractional part; the exotic
forms — exponents, `inf`, `nan` — do not occur in these inputs). -/
def parseFloat (s : List Char) : Option ℚ :=
  match stripChars s with
  | '-' :: ds => (decimalVal ds).map Neg.neg
  | '+' :: ds => decimalVal ds
  | ds => decimalVal ds

/-- `"| Runs"`: the fixed head of the table pattern. -/
def hdr : List Char := "| Runs".toList

/-- `"\n|"`: the fixed text after the first lazy gap of the pattern. -/
def nlPipe : List Char := "\n|".toList

/-- `"\n\n"`: the terminator of the pattern. -/
def nlnl : List Char := "\n\n".toList

/-- Whether the pattern `\| Runs.*?\n\|(.*?)\n\n` (DOTALL) can match
starting exactly at the head of `t`. -/
def canMatchAt (t : List Char) : Bool :=
  leadsWith hdr t &&
    ((List.range ((t.drop 6).length + 1)).any fun a =>
      leadsWith nlPipe ((t.drop 6).drop a) &&
        strContains nlnl ((t.drop 6).drop (a + 2)))

/-- `re.search(r'\| Runs.*?\n\|(.*?)\n\n', content, re.DOTALL)`, returning
`match.group(0)`: the match starts at the leftmost position where the
whole pattern can match, and each lazy gap (`.*?`) takes the least
width that lets the remainder of the pattern match. -/
def searchTable (s : List Char) : Option (List Char) :=
  match (List.range (s.length + 1)).find? (fun i => canMatchAt (s.drop i)) with
  | none => none
  | some i =>
    let rest := (s.drop i).drop 6
    match (List.range (rest.length + 1)).find? (fun a =>
        leadsWith nlPipe (rest.drop a) && strContains nlnl (rest.drop (a + 2))) with
    | none => none
    | some a =>
      match (List.range ((rest.drop (a + 2)).length + 1)).find? (fun b =>
          leadsWith nlnl ((rest.drop (a + 2)).drop b)) with
      | none => none
      | some b => some ((s.drop i).take (6 + a + 2 + b + 2))

/-- One iteration of the row loop of `parse_times`.  Outer `none` models
a raised exception; `some none` a row skipped by the
`len(parts) >= 9` guard; `some (some r)` an appended row.  A kept row
evaluates `int(parts[2].strip())`, `int(parts[3].strip())` and
`float(parts[9].strip())`; a missing index or a failed conversion
raises. -/
def parseRow (line : List Char) : Option (Option BenchRow) :=
  let parts := splitOnCh '|' line
  if 9 ≤ parts.length then
    match (parts.get? 2).bind (fun f => parseInt (stripChars f)),
          (parts.get? 3).bind (fun f => parseInt (stripChars f)),
          (parts.get? 9).bind (fun f => parseFloat (stripChars f)) with
    | some pop, some regions, some time => some (some (pop, regions, time))
    | _, _, _ => none
  else
    some none

/-- The row loop of `parse_times` over the extracted lines. -/
def parseRowsAux : List (List Char) → Option (List BenchRow)
  | [] => some []
  | line :: rest =>
    match parseRow line with
    | none => none
    | some none => parseRowsAux rest
    | some (some r) => (parseRowsAux rest).map fun rs => r :: rs

/-- `parse_times` on the file's text: no table match returns `[]`;
otherwise the matched block is split on newlines, the first two and
last two lines are dropped (`[2:-2]`), and the remaining rows are
parsed.  `none` models a raised exception. -/
def parse_times (content : List Char) : Option (List BenchRow) :=
  match searchTable content with
  | none => some []
  | some g =>
    let ls := (splitOnCh '\n' g).drop 2
    parseRowsAux (ls.take (ls.length - 2))

/-- One printed row of the comparison table. -/
structure CompRow where
  pop : Int
  regions : Int
  old_t : ℚ
  new_t : ℚ
  change : ℚ
  pct : ℚ
deriving DecidableEq

/-- `(change / old_t * 100) if old_t > 0 else 0`. -/
def pct_change (old_t change : ℚ) : ℚ :=
  if 0 < old_t then change / old_t * 100 else 0

/-- The row loop of the comparator: old and new rows paired positionally
by `zip` (the shorter list bounds the pairing). -/
def compareRows (old_times new_times : List BenchRow) : List CompRow :=
  (old_times.zip new_times).map fun pr =>
    { pop := pr.1.1, regions := pr.1.2.1, old_t := pr.1.2.2, new_t := pr.2.2.2
      change := pr.2.2.2 - pr.1.2.2
      pct := pct_change pr.1.2.2 (pr.2.2.2 - pr.1.2.2) }

/-- `total_old`: sum of old times over the paired rows. -/
def total_old (old_times new_times : List BenchRow) : ℚ :=
  ((old_times.zip new_times).map fun pr => pr.1.2.2).sum

/-- `total_new`: sum of new times over the paired rows. -/
def total_new (old_times new_times : List BenchRow) : ℚ :=
  ((old_times.zip new_times).map fun pr => pr.2.2.2).sum

/-- The per-case total percentage line. -/
def total_pct (old_times new_times : List BenchRow) : ℚ :=
  pct_change (total_old old_times new_times)
    (total_new old_times new_times - total_old old_times new_times)

/-- `grand_total_old` accumulated over the benchmark cases. -/
def grand_total_old (cases : List (List BenchRow × List BenchRow)) : ℚ :=
  (cases.map fun c => total_old c.1 c.2).sum

/-- `grand_total_new` accumulated over the benchmark cases. -/
def grand_total_new (cases : List (List BenchRow × List BenchRow)) : ℚ :=
  (cases.map fun c => total_new c.1 c.2).sum

/-- The grand-summary percentage. -/
def grand_pct (cases : List (List BenchRow × List BenchRow)) : ℚ :=
  pct_change (grand_total_old cases) (grand_total_new cases - grand_total_old cases)

end CompareBenchmarks

/-! ## Lemmas about the profile aggregator -/

namespace AnalyzeProfiles

theorem get_incr (c : Counter) (k k' : Nat) :
    Counter.get (Counter.incr c k) k' = Counter.get c k' + (if k' = k then 1 else 0) := by
  induction c with
  | nil =>
    simp only [Counter.incr, Counter.get]
    by_cases h : k' = k
    · subst h; simp
    · simp [h, Ne.symm h]
  | cons p rest ih =>
    obtain ⟨a, v⟩ := p
    by_cases hak : a = k
    · subst hak
      simp only [Counter.incr, if_pos rfl, Counter.get]
      by_cases h : a = k'
      · subst h; simp
      · simp [h, Ne.symm h]
    · simp only [Counter.incr, if_neg hak, Counter.get, ih]
      by_cases h : a = k'
      · subst h
        have hne : ¬(a = k) := hak
        simp [fun hh : a = k => hak hh, fun hh : k = a => hak hh.symm]
      · simp [h]

theorem get_foldl_incr (l : List Nat) (c : Counter) (k : Nat) :
    Counter.get (l.foldl Counter.incr c) k = Counter.get c k + l.count k := by
  induction l generalizing c with
  | nil => simp
  | cons a t ih =>
    simp only [List.foldl_cons, ih, get_incr, List.count_cons, beq_iff_eq]
    by_cases h : k = a <;> simp [h] <;> omega

theorem valsum_incr (c : Counter) (k : Nat) :
    ((Counter.incr c k).map Prod.snd).sum = (c.map Prod.snd).sum + 1 := by
  induction c with
  | nil => simp [Counter.incr]
  | cons p rest ih =>
    obtain ⟨a, v⟩ := p
    by_cases h : a = k <;> simp [Counter.incr, h, ih] <;> omega

theorem valsum_foldl_incr (l : List Nat) (c : Counter) :
    ((l.foldl Counter.incr c).map Prod.snd).sum = (c.map Prod.snd).sum + l.length := by
  induction l generalizing c with
  | nil => simp
  | cons a t ih => simp [List.foldl_cons, ih, valsum_incr]; omega

theorem keys_incr (c : Counter) (k : Nat) :
    (Counter.incr c k).map Prod.fst =
      if k ∈ c.map Prod.fst then c.map Prod.fst else c.map Prod.fst ++ [k] := by
  induction c with
  | nil => simp [Counter.incr]
  | cons p rest ih =>
    obtain ⟨a, v⟩ := p
    by_cases h : a = k
    · subst h; simp [Counter.incr]
    · simp only [Counter.incr, if_neg h, List.map_cons, ih, List.mem_cons]
      by_cases hm : k ∈ rest.map Prod.fst
      · simp [hm, Ne.symm h]
      · simp [hm, Ne.symm h]

theorem keys_foldl_incr (l : List Nat) (c : Counter) :
    (l.foldl Counter.incr c).map Prod.fst
      = l.foldl (fun acc k => if k ∈ acc then acc else acc ++ [k]) (c.map Prod.fst) := by
  induction l generalizing c with
  | nil => rfl
  | cons a t ih => simp only [List.foldl_cons, ih, keys_incr]

theorem incr_ne_nil (c : Counter) (k : Nat) : Counter.incr c k ≠ [] := by
  cases c with
  | nil => simp [Counter.incr]
  | cons p rest =>
    obtain ⟨a, v⟩ := p
    by_cases h : a = k <;> simp [Counter.incr, h]

theorem total_foldl_processStack (ss : List (List Nat)) (st : AnalyzeState) :
    (ss.foldl processStack st).total_samples = st.total_samples := by
  induction ss generalizing st with
  | nil => rfl
  | cons s t ih =>
    rw [List.foldl_cons, ih]
    cases h : s.getLast? <;> simp [processStack, h]

theorem exclusive_foldl_processStack (ss : List (List Nat)) (st : AnalyzeState) :
    (ss.foldl processStack st).exclusive
      = (ss.filterMap List.getLast?).foldl Counter.incr st.exclusive := by
  induction ss generalizing st with
  | nil => rfl
  | cons s t ih =>
    cases h : s.getLast? with
    | none => simp [List.filterMap_cons, h, processStack, ih]
    | some leaf => simp [List.filterMap_cons, h, processStack, ih]

theorem inclusive_foldl_processStack (ss : List (List Nat)) (st : AnalyzeState) :
    (ss.foldl processStack st).inclusive
      = ((ss.map List.dedup).flatten).foldl Counter.incr st.inclusive := by
  induction ss generalizing st with
  | nil => rfl
  | cons s t ih =>
    cases h : s.getLast? with
    | none =>
      have hs : s = [] := List.getLast?_eq_none_iff.mp h
      subst hs
      simp [processStack, ih]
    | some leaf =>
      simp [processStack, h, ih, List.foldl_append]

theorem total_foldl_processProfile (ps : List Profile) (st : AnalyzeState) :
    (ps.foldl processProfile st).total_samples
      = st.total_samples + ((ps.map fun p => p.samples.length)).sum := by
  induction ps generalizing st with
  | nil => simp
  | cons p t ih =>
    simp only [List.foldl_cons, ih, processProfile, total_foldl_processStack,
      List.map_cons, List.sum_cons]
    omega

theorem exclusive_foldl_processProfile (ps : List Profile) (st : AnalyzeState) :
    (ps.foldl processProfile st).exclusive
      = (((ps.map Profile.samples).flatten).filterMap List.getLast?).foldl
          Counter.incr st.exclusive := by
  induction ps generalizing st with
  | nil => rfl
  | cons p t ih =>
    simp only [List.foldl_cons, ih, processProfile, exclusive_foldl_processStack,
      List.map_cons, List.flatten_cons, List.filterMap_append, List.foldl_append]

theorem inclusive_foldl_processProfile (ps : List Profile) (st : AnalyzeState) :
    (ps.foldl processProfile st).inclusive
      = ((((ps.map Profile.samples).flatten).map List.dedup).flatten).foldl
          Counter.incr st.inclusive := by
  induction ps generalizing st with
  | nil => rfl
  | cons p t ih =>
    simp only [List.foldl_cons, ih, processProfile, inclusive_foldl_processStack,
      List.map_cons, List.flatten_cons, List.map_append, List.flatten_append,
      List.foldl_append]

theorem analyze_total (d : ProfileData) :
    (analyze_profile d).total_samples = ((d.profiles.map fun p => p.samples.length)).sum := by
  simp [analyze_profile, total_foldl_processProfile]

theorem analyze_exclusive (d : ProfileData) :
    (analyze_profile d).exclusive = (exclusiveStream d).foldl Counter.incr [] := by
  simp [analyze_profile, exclusive_foldl_processProfile, exclusiveStream, allSamples]

theorem analyze_inclusive (d : ProfileData) :
    (analyze_profile d).inclusive = (inclusiveStream d).foldl Counter.incr [] := by
  simp [analyze_profile, inclusive_foldl_processProfile, inclusiveStream, allSamples]

theorem total_eq_length (d : ProfileData) :
    (analyze_profile d).total_samples = (allSamples d).length := by
  rw [analyze_total]
  simp only [allSamples, List.length_flatten, List.map_map]
  rfl

theorem count_filterMap_getLast (ss : List (List Nat)) (k : Nat) :
    (ss.filterMap List.getLast?).count k
      = ss.countP (fun s => decide (s.getLast? = some k)) := by
  induction ss with
  | nil => rfl
  | cons s t ih =>
    cases h : s.getLast? with
    | none => simp [List.filterMap_cons, h, List.countP_cons, ih]
    | some a =>
      simp only [List.filterMap_cons, h, List.countP_cons, ih, List.count_cons,
        beq_iff_eq, Option.some_inj, decide_eq_true_eq]

theorem count_flatten_dedup (ss : List (List Nat)) (k : Nat) :
    ((ss.map List.dedup).flatten).count k = ss.countP (fun s => decide (k ∈ s)) := by
  induction ss with
  | nil => rfl
  | cons s t ih =>
    simp only [List.map_cons, List.flatten_cons, List.count_append, ih,
      List.countP_cons, List.count_dedup, decide_eq_true_eq]
    by_cases hk : k ∈ s
    all_goals simp [hk]
    all_goals omega

theorem get_exclusive_eq (d : ProfileData) (k : Nat) :
    Counter.get (analyze_profile d).exclusive k
      = (allSamples d).countP (fun s => decide (s.getLast? = some k)) := by
  rw [analyze_exclusive, get_foldl_incr, exclusiveStream, count_filterMap_getLast]
  simp [Counter.get]

theorem get_inclusive_eq (d : ProfileData) (k : Nat) :
    Counter.get (analyze_profile d).inclusive k
      = (allSamples d).countP (fun s => decide (k ∈ s)) := by
  rw [analyze_inclusive, get_foldl_incr, inclusiveStream, count_flatten_dedup]
  simp [Counter.get]

theorem length_filterMap_getLast (ss : List (List Nat)) :
    (ss.filterMap List.getLast?).length = ss.countP (fun s => !s.isEmpty) := by
  induction ss with
  | nil => rfl
  | cons s t ih =>
    cases h : s.getLast? with
    | none =>
      have hs : s = [] := List.getLast?_eq_none_iff.mp h
      subst hs
      simp [List.filterMap_cons, List.countP_cons, ih]
    | some a =>
      have hs : s ≠ [] := by
        intro hnil
        rw [hnil] at h
        simp at h
      simp [List.filterMap_cons, h, List.countP_cons, ih, List.isEmpty_iff, hs]

theorem exclusive_valsum (d : ProfileData) :
    (((analyze_profile d).exclusive.map Prod.snd).sum)
      = (allSamples d).countP (fun s => !s.isEmpty) := by
  rw [analyze_exclusive, valsum_foldl_incr, exclusiveStream, length_filterMap_getLast]
  simp

theorem countP_isEmpty_split (ss : List (List Nat)) :
    ss.countP (fun s => !s.isEmpty) = ss.length - ss.countP (fun s => decide (s = [])) := by
  induction ss with
  | nil => rfl
  | cons s t ih =>
    have hc : t.countP (fun s => decide (s = [])) ≤ t.length := List.countP_le_length _
    cases s with
    | nil => simp [List.countP_cons, ih]
    | cons a s' => simp [List.countP_cons, ih]; omega

theorem allSamples_dropEmpty (d : ProfileData) :
    allSamples (dropEmptySamples d) = (allSamples d).filter (fun s => !s.isEmpty) := by
  simp only [allSamples, dropEmptySamples, List.map_map, List.filter_flatten]
  rfl

theorem filterMap_getLast_filter (ss : List (List Nat)) :
    ((ss.filter fun s => !s.isEmpty).filterMap List.getLast?)
      = ss.filterMap List.getLast? := by
  induction ss with
  | nil => rfl
  | cons s t ih =>
    cases s with
    | nil => simp [List.filterMap_cons, ih]
    | cons a s' => simp [List.filter_cons, List.filterMap_cons, ih]

theorem flatten_dedup_filter (ss : List (List Nat)) :
    (((ss.filter fun s => !s.isEmpty).map List.dedup).flatten)
      = ((ss.map List.dedup).flatten) := by
  induction ss with
  | nil => rfl
  | cons s t ih =>
    cases s with
    | nil => simp [ih]
    | cons a s' => simp [List.filter_cons, ih]

theorem mc_trans : ∀ a b c : Nat × Nat,
    Nat.ble b.2 a.2 = true → Nat.ble c.2 b.2 = true → Nat.ble c.2 a.2 = true := by
  intro a b c h1 h2
  simp only [Nat.ble_eq] at h1 h2 ⊢
  omega

theorem mc_total : ∀ a b : Nat × Nat, (Nat.ble b.2 a.2 || Nat.ble a.2 b.2) = true := by
  intro a b
  simp only [Bool.or_eq_true, Nat.ble_eq]
  omega

theorem pairwise_most_common (c : Counter) (n : Nat) :
    (most_common c n).Pairwise fun a b => b.2 ≤ a.2 := by
  have h := @List.sorted_mergeSort (Nat × Nat) (fun a b => Nat.ble b.2 a.2)
    mc_trans mc_total c
  have h2 : (c.mergeSort fun a b => Nat.ble b.2 a.2).Pairwise fun a b : Nat × Nat => b.2 ≤ a.2 :=
    h.imp (by intro a b hh; simpa [Nat.ble_eq] using hh)
  exact List.Pairwise.sublist (List.take_sublist n _) h2

theorem filter_most_common_sublist (c : Counter) (n val : Nat) :
    List.Sublist ((most_common c n).filter fun p => p.2 == val)
      (c.filter fun p => p.2 == val) := by
  have hmemF : ∀ p ∈ c.filter (fun p : Nat × Nat => p.2 == val), p.2 = val := by
    intro p hp
    simpa [beq_iff_eq] using (List.mem_filter.mp hp).2
  have hpw : (c.filter fun p : Nat × Nat => p.2 == val).Pairwise
      (fun a b => (fun a b : Nat × Nat => Nat.ble b.2 a.2) a b = true) := by
    apply List.pairwise_of_forall_mem_list
    intro a ha b hb
    simp [Nat.ble_eq, hmemF a ha, hmemF b hb]
  have hsub : List.Sublist (c.filter fun p : Nat × Nat => p.2 == val)
      (c.mergeSort (fun a b => Nat.ble b.2 a.2)) :=
    List.sublist_mergeSort mc_trans mc_total hpw (List.filter_sublist c)
  have hsub2 : List.Sublist (c.filter fun p : Nat × Nat => p.2 == val)
      ((c.mergeSort (fun a b => Nat.ble b.2 a.2)).filter (fun p => p.2 == val)) := by
    have h1 := hsub.filter (fun p : Nat × Nat => p.2 == val)
    rwa [List.filter_eq_self.mpr (fun a ha => by simp [beq_iff_eq, hmemF a ha])] at h1
  have hlen : ((c.mergeSort (fun a b => Nat.ble b.2 a.2)).filter
        fun p : Nat × Nat => p.2 == val).length
      = (c.filter fun p : Nat × Nat => p.2 == val).length :=
    ((List.mergeSort_perm c _).filter _).length_eq
  have heq : (c.filter fun p : Nat × Nat => p.2 == val)
      = (c.mergeSort (fun a b => Nat.ble b.2 a.2)).filter (fun p => p.2 == val) :=
    hsub2.eq_of_length hlen.symm
  have hfin : List.Sublist ((most_common c n).filter fun p => p.2 == val)
      (((c.mergeSort (fun a b => Nat.ble b.2 a.2)).filter fun p : Nat × Nat => p.2 == val)) :=
    (List.take_sublist n _).filter _
  rw [heq]
  exact hfin

theorem exclusive_keys (d : ProfileData) :
    (analyze_profile d).exclusive.map Prod.fst = firstOccurs (exclusiveStream d) := by
  rw [analyze_exclusive, keys_foldl_incr]
  rfl

theorem inclusive_keys (d : ProfileData) :
    (analyze_profile d).inclusive.map Prod.fst = firstOccurs (inclusiveStream d) := by
  rw [analyze_inclusive, keys_foldl_incr]
  rfl

theorem sum_filter_enumFrom (q : String → Bool) (g : Nat → Nat) (names : List String) :
    ∀ k, (((List.enumFrom k names).filter fun p => q p.2).map fun p => g p.1).sum
      = ((List.range names.length).map fun i =>
          if q (names.getD i "") then g (k + i) else 0).sum := by
  induction names with
  | nil => intro k; rfl
  | cons nm t ih =>
    intro k
    rw [List.length_cons, List.range_succ_eq_map, List.enumFrom_cons, List.filter_cons]
    by_cases hq : q nm
    · simp only [hq, if_true, List.map_cons, List.sum_cons, List.getD_cons_zero, Nat.add_zero]
      rw [ih (k + 1), List.map_map]
      congr 1
      apply congrArg List.sum
      apply List.map_congr_left
      intro i hi
      have harith : k + 1 + i = k + (i + 1) := by omega
      simp [Function.comp, List.getD_cons_succ, harith]
    · simp only [hq, if_false, List.map_cons, List.sum_cons, List.getD_cons_zero, Bool.false_eq_true]
      rw [ih (k + 1), List.map_map]
      rw [Nat.zero_add]
      apply congrArg List.sum
      apply List.map_congr_left
      intro i hi
      have harith : k + 1 + i = k + (i + 1) := by omega
      simp [Function.comp, List.getD_cons_succ, harith]

/-- `most_common` of a non-empty counter is non-empty. -/
theorem most_common_ne_nil (c : Counter) (hc : c ≠ []) : most_common c 20 ≠ [] := by
  intro habs
  unfold most_common at habs
  rcases List.take_eq_nil_iff.mp habs with h20 | hms
  · simp at h20
  · exact hc (List.Perm.eq_nil ((hms ▸ List.mergeSort_perm c _).symm))

end AnalyzeProfiles

section Claims

open AnalyzeProfiles CompareBenchmarks

/-- C1: for every profile input and frame index, the inclusive count
computed by `analyze_profile` is the number of samples whose stack
contains that index anywhere — each sample contributing at most 1 per
frame even when the frame occurs several times in its stack. -/
theorem claim_C1 (d : ProfileData) (k : Nat) :
    Counter.get (analyze_profile d).inclusive k
      = (allSamples d).countP (fun s => decide (k ∈ s)) :=
  get_inclusive_eq d k

/-- C2: every non-empty sample bumps the exclusive count of exactly its
leaf (last) frame index by 1 — the exclusive count of `k` is the number
of samples whose last element is `k` — and consequently the exclusive
counts over all frames sum to `total_samples` minus the number of
empty-stack samples. -/
theorem claim_C2 (d : ProfileData) (k : Nat) :
    Counter.get (analyze_profile d).exclusive k
        = (allSamples d).countP (fun s => decide (s.getLast? = some k))
  ∧ ((analyze_profile d).exclusive.map Prod.snd).sum
        = (analyze_profile d).total_samples
            - (allSamples d).countP (fun s => decide (s = [])) := by
  refine ⟨get_exclusive_eq d k, ?_⟩
  rw [exclusive_valsum, countP_isEmpty_split, total_eq_length]

/-- C3: `total_samples` is the sum of the sample-list lengths over all
profiles (empty stacks included), while removing the empty stacks
changes neither the exclusive nor the inclusive counter. -/
theorem claim_C3 (d : ProfileData) :
    (analyze_profile d).total_samples = (d.profiles.map fun p => p.samples.length).sum
  ∧ (analyze_profile (dropEmptySamples d)).exclusive = (analyze_profile d).exclusive
  ∧ (analyze_profile (dropEmptySamples d)).inclusive = (analyze_profile d).inclusive := by
  refine ⟨analyze_total d, ?_, ?_⟩
  · rw [analyze_exclusive, analyze_exclusive]
    unfold exclusiveStream
    rw [allSamples_dropEmpty, filterMap_getLast_filter]
  · rw [analyze_inclusive, analyze_inclusive]
    unfold inclusiveStream
    rw [allSamples_dropEmpty, flatten_dedup_filter]

/-- C5: both top-20 listings are sorted by descending count; entries of
equal count keep their relative order in the counter (a stable sort),
and the counter's key order is exactly the order of first increment
during accumulation — so among ties the frame first incremented ranks
higher. -/
theorem claim_C5 (d : ProfileData) :
    ((top20_exclusive d).Pairwise fun a b => b.2 ≤ a.2)
  ∧ (∀ n : Nat, List.Sublist ((top20_exclusive d).filter fun p => p.2 == n)
        ((analyze_profile d).exclusive.filter fun p => p.2 == n))
  ∧ ((analyze_profile d).exclusive.map Prod.fst = firstOccurs (exclusiveStream d))
  ∧ ((top20_inclusive d).Pairwise fun a b => b.2 ≤ a.2)
  ∧ (∀ n : Nat, List.Sublist ((top20_inclusive d).filter fun p => p.2 == n)
        ((analyze_profile d).inclusive.filter fun p => p.2 == n))
  ∧ ((analyze_profile d).inclusive.map Prod.fst = firstOccurs (inclusiveStream d)) :=
  ⟨pairwise_most_common _ _, fun n => filter_most_common_sublist _ _ n, exclusive_keys d,
   pairwise_most_common _ _, fun n => filter_most_common_sublist _ _ n, inclusive_keys d⟩

/-- C6: for each configured target string, the summed inclusive and
exclusive counts range over exactly the frames whose (lower-cased)
name contains the (lower-cased) target as a substring, and the
target's summary line is printed iff the inclusive sum is nonzero. -/
theorem claim_C6 (d : ProfileData) (t : String) (ht : t ∈ targets) :
    total_inc d t = ((List.range (frame_names d).length).map fun i =>
        if strContains (lowerChars t) (lowerChars ((frame_names d).getD i ""))
          then Counter.get (analyze_profile d).inclusive i else 0).sum
  ∧ total_exc d t = ((List.range (frame_names d).length).map fun i =>
        if strContains (lowerChars t) (lowerChars ((frame_names d).getD i ""))
          then Counter.get (analyze_profile d).exclusive i else 0).sum
  ∧ (t ∈ printedTargets d ↔ 0 < total_inc d t) := by
  refine ⟨?_, ?_, ?_⟩
  · unfold total_inc matchesOf
    rw [List.enum_eq_enumFrom, sum_filter_enumFrom
      (fun nm => strContains (lowerChars t) (lowerChars nm))
      (fun i => Counter.get (analyze_profile d).inclusive i) (frame_names d) 0]
    simp
  · unfold total_exc matchesOf
    rw [List.enum_eq_enumFrom, sum_filter_enumFrom
      (fun nm => strContains (lowerChars t) (lowerChars nm))
      (fun i => Counter.get (analyze_profile d).exclusive i) (frame_names d) 0]
    simp
  · simp [printedTargets, List.mem_filter, ht]

/-- C6 witness: the concrete profile and the target "Mutex". -/
theorem claim_C6_witness :
    "Mutex" ∈ printedTargets exampleProfile ↔ 0 < total_inc exampleProfile "Mutex" :=
  (claim_C6 exampleProfile "Mutex" (by decide)).2.2

/-- C9: the exclusive count of a frame never exceeds its inclusive
count — the sample that bumps a frame as leaf also contains it. -/
theorem claim_C9 (d : ProfileData) (k : Nat) :
    Counter.get (analyze_profile d).exclusive k
      ≤ Counter.get (analyze_profile d).inclusive k := by
  rw [get_exclusive_eq, get_inclusive_eq]
  apply List.countP_mono_left
  intro s hs h
  simp only [decide_eq_true_eq] at h ⊢
  obtain ⟨ys, rfl⟩ := List.getLast?_eq_some_iff.mp h
  simp

/-- C10: each place `analyze_profile` divides by `total_samples` is
reached only when at least one sample exists: a counter listing is
non-empty, or a target summary is printed, only if some sample was
counted, so `total_samples ≥ 1` and no division by zero occurs. -/
theorem claim_C10 (d : ProfileData) :
    (top20_exclusive d ≠ [] → 1 ≤ (analyze_profile d).total_samples)
  ∧ (top20_inclusive d ≠ [] → 1 ≤ (analyze_profile d).total_samples)
  ∧ (∀ t : String, 0 < total_inc d t → 1 ≤ (analyze_profile d).total_samples) := by
  have hne : allSamples d ≠ [] → 1 ≤ (analyze_profile d).total_samples := by
    intro h
    rw [total_eq_length]
    exact List.length_pos.mpr h
  refine ⟨?_, ?_, ?_⟩
  · intro h
    apply hne
    intro habs
    apply h
    unfold top20_exclusive
    rw [analyze_exclusive]
    unfold exclusiveStream
    rw [habs]
    simp [most_common]
  · intro h
    apply hne
    intro habs
    apply h
    unfold top20_inclusive
    rw [analyze_inclusive]
    unfold inclusiveStream
    rw [habs]
    simp [most_common]
  · intro t ht
    apply hne
    intro habs
    have hzero : total_inc d t = 0 := by
      apply List.sum_eq_zero
      intro x hx
      simp only [total_inc, List.mem_map] at hx
      obtain ⟨p, hp, rfl⟩ := hx
      rw [get_inclusive_eq, habs]
      rfl
    omega

/-- C10 witness: the concrete profile reaches all three guards. -/
theorem claim_C10_witness :
    1 ≤ (analyze_profile exampleProfile).total_samples
  ∧ 1 ≤ (analyze_profile exampleProfile).total_samples
  ∧ 1 ≤ (analyze_profile exampleProfile).total_samples :=
  ⟨(claim_C10 exampleProfile).1 (most_common_ne_nil _ (by decide)),
   (claim_C10 exampleProfile).2.1 (most_common_ne_nil _ (by decide)),
   (claim_C10 exampleProfile).2.2 "Mutex" (by decide)⟩

/-- C4 counterexample: the pattern matches a block whose data row splits
into exactly 9 pipe-delimited fields; the row is kept by the
`len(parts) >= 9` guard, its fields 2 and 3 parse as integers, yet
`parts[9]` does not exist, so the extraction raises (modelled `none`)
instead of succeeding. -/
theorem claim_C4_counterexample :
    9 ≤ (splitOnCh '|' ("| q | 1 | 2 | a | b | c | d | e").toList).length
  ∧ (splitOnCh '|' ("| q | 1 | 2 | a | b | c | d | e").toList).get? 9 = none
  ∧ parseRow (("| q | 1 | 2 | a | b | c | d | e").toList) = none
  ∧ parse_times (("| Runs |\n|---|\n| q | 1 | 2 | a | b | c | d | e\n\n").toList)
      = none := by
  refine ⟨by decide, rfl, rfl, rfl⟩

/-- C4 (amended): a data row is kept exactly when it splits into at least
9 pipe-delimited fields; for a kept row the accesses at field indices
2 and 3 are always in bounds, but the access at field index 9 is in
bounds exactly when the row has at least 10 fields — a kept row with
exactly 9 fields makes the whole parse raise an out-of-bounds error. -/
theorem claim_C4_amended (line : List Char) :
    (parseRow line = some none ↔ (splitOnCh '|' line).length < 9)
  ∧ (9 ≤ (splitOnCh '|' line).length →
      ((splitOnCh '|' line).get? 2).isSome ∧ ((splitOnCh '|' line).get? 3).isSome)
  ∧ (((splitOnCh '|' line).get? 9).isSome ↔ 10 ≤ (splitOnCh '|' line).length)
  ∧ ((splitOnCh '|' line).length = 9 → parseRow line = none) := by
  refine ⟨?_, ?_, ?_, ?_⟩
  · by_cases h9 : 9 ≤ (splitOnCh '|' line).length
    · simp only [parseRow, if_pos h9]
      constructor
      · intro h
        split at h
        · exact absurd h (by simp)
        · exact absurd h (by simp)
      · intro h
        omega
    · simp only [parseRow, if_neg h9]
      simp
      omega
  · intro h9
    constructor
    · rw [Option.isSome_iff_ne_none]
      intro hn
      have := List.get?_eq_none.mp hn
      omega
    · rw [Option.isSome_iff_ne_none]
      intro hn
      have := List.get?_eq_none.mp hn
      omega
  · constructor
    · intro h
      rw [Option.isSome_iff_ne_none] at h
      by_contra hlt
      exact h (List.get?_eq_none.mpr (by omega))
    · intro h
      rw [Option.isSome_iff_ne_none]
      intro hn
      have := List.get?_eq_none.mp hn
      omega
  · intro h9
    have hnone : (splitOnCh '|' line).get? 9 = none :=
      List.get?_eq_none.mpr (by omega)
    simp only [parseRow, if_pos (by omega : 9 ≤ (splitOnCh '|' line).length), hnone,
      Option.none_bind]
    split
    · rename_i heq
      exact Option.noConfusion heq
    · rfl

/-- C4 witness: on the 9-field row the guard keeps it, field 2 is in
bounds, and the parse raises. -/
theorem claim_C4_amended_witness :
    ((splitOnCh '|' (("| q | 1 | 2 | a | b | c | d | e").toList)).get? 2).isSome
  ∧ parseRow (("| q | 1 | 2 | a | b | c | d | e").toList) = none :=
  ⟨((claim_C4_amended (("| q | 1 | 2 | a | b | c | d | e").toList)).2.1 (by decide)).1,
   (claim_C4_amended (("| q | 1 | 2 | a | b | c | d | e").toList)).2.2.2 (by decide)⟩

/-- C7: when the table pattern does not match the file content,
`parse_times` returns the empty row list instead of raising, and a
comparison against an empty side pairs no rows and totals 0.0. -/
theorem claim_C7 (content : List Char) (h : searchTable content = none)
    (xs : List BenchRow) :
    parse_times content = some []
  ∧ compareRows [] xs = [] ∧ compareRows xs [] = []
  ∧ total_old [] xs = 0 ∧ total_new [] xs = 0
  ∧ total_old xs [] = 0 ∧ total_new xs [] = 0
  ∧ total_pct [] xs = 0 ∧ total_pct xs [] = 0 := by
  refine ⟨?_, ?_, ?_, ?_, ?_, ?_, ?_, ?_, ?_⟩
  · unfold parse_times
    rw [h]
  · simp [compareRows]
  · simp [compareRows, List.zip_nil_right]
  · simp [total_old]
  · simp [total_new]
  · simp [total_old, List.zip_nil_right]
  · simp [total_new, List.zip_nil_right]
  · simp [total_pct, total_old, total_new, pct_change]
  · simp [total_pct, total_old, total_new, pct_change, List.zip_nil_right]

/-- C7 witness: a concrete content with no table, and a non-empty other
side. -/
theorem claim_C7_witness :
    parse_times ("no table here".toList) = some []
  ∧ total_pct [] [((1 : Int), (1 : Int), (1 : ℚ))] = 0 :=
  ⟨(claim_C7 ("no table here".toList) (by decide) []).1,
   (claim_C7 ("no table here".toList) (by decide)
      [((1 : Int), (1 : Int), (1 : ℚ))]).2.2.2.2.2.2.2.1⟩

/-- C8: every paired row's percentage change is
`100 * (new - old) / old` when `old > 0` and `0` otherwise (in
particular `old = 0` yields `0` without a division error), and the
same guarded formula gives the per-case and grand totals. -/
theorem claim_C8 (old_times new_times : List BenchRow)
    (cases : List (List BenchRow × List BenchRow)) :
    (∀ r ∈ compareRows old_times new_times,
        (r.pct = if 0 < r.old_t then 100 * (r.new_t - r.old_t) / r.old_t else 0)
      ∧ (r.old_t = 0 → r.pct = 0))
  ∧ (total_pct old_times new_times
      = if 0 < total_old old_times new_times
        then 100 * (total_new old_times new_times - total_old old_times new_times)
              / total_old old_times new_times
        else 0)
  ∧ (grand_pct cases
      = if 0 < grand_total_old cases
        then 100 * (grand_total_new cases - grand_total_old cases) / grand_total_old cases
        else 0) := by
  have key : ∀ o ch : ℚ, pct_change o ch = if 0 < o then 100 * ch / o else 0 := by
    intro o ch
    unfold pct_change
    split
    · rw [div_mul_eq_mul_div, mul_comm]
    · rfl
  refine ⟨?_, ?_, ?_⟩
  · intro r hr
    simp only [compareRows, List.mem_map] at hr
    obtain ⟨pr, hpr, rfl⟩ := hr
    refine ⟨?_, ?_⟩
    · exact key _ _
    · intro h0
      show pct_change _ _ = 0
      rw [key]
      have h0' : pr.1.2.2 = 0 := h0
      rw [h0']
      simp

  · unfold total_pct
    exact key _ _
  · unfold grand_pct
    exact key _ _

/-- C8 witness: a pair with `old_time = 0` reports `0` percent. -/
theorem claim_C8_witness : pct_change 0 2 = 0 :=
  ((claim_C8 [((100 : Int), (5 : Int), (0 : ℚ))] [((100 : Int), (5 : Int), (2 : ℚ))] []).1
    ⟨100, 5, 0, 2, 2, pct_change 0 2⟩ (by simp [compareRows])).2 rfl

end Claims

end HillDescent
